import Mathlib

/-!
Shallow embedding of the Hereditas build-time encryption pipeline
(`cli/lib/Builder.js`): path filtering, content scanning, key derivation
dispatch, per-file authenticated encryption with key wrapping, index
construction, and the build orchestrator, together with theorems checking
the specification's claims against this embedding.

Modelling conventions:
* Byte sequences are `List Nat` (each element intended `< 256`; theorems
  that need the bound take it as a hypothesis).
* External cryptographic primitives from the Node runtime (AES-256-GCM,
  PBKDF2, Argon2) are not part of the repository; they are modelled either
  as executable stand-ins that keep exactly the properties the code relies
  on (determinism, ciphertext length = plaintext length, 16-byte tag) or as
  symbolic call descriptors recording the parameters the code passes.
* JavaScript object identity is modelled by an explicit `id` field on
  records, so that "mutates the very same record" and "returns a fresh
  copy" are distinguishable statements.
* Randomness (`crypto.randomBytes`) is modelled by threading the drawn
  bytes through the build environment explicitly.
-/

set_option autoImplicit false

namespace Hereditas

/-! ### Byte-sequence encodings (Node `Buffer.toString('hex' | 'base64')`) -/

/-- One hexadecimal digit, lowercase as produced by `Buffer.toString('hex')`:
code point 48 onwards for the decimal digits, 97 onwards for the letters. -/
def hexChar (n : Nat) : Char :=
  if n < 10 then Char.ofNat (48 + n) else Char.ofNat (87 + n)

/-- Numeric value of a hexadecimal digit (inverse of `hexChar`). -/
def hexVal (c : Char) : Nat :=
  match c with
  | '0' => 0
  | '1' => 1
  | '2' => 2
  | '3' => 3
  | '4' => 4
  | '5' => 5
  | '6' => 6
  | '7' => 7
  | '8' => 8
  | '9' => 9
  | 'a' => 10
  | 'b' => 11
  | 'c' => 12
  | 'd' => 13
  | 'e' => 14
  | 'f' => 15
  | _ => 0

/-- Two-character hexadecimal rendering of one byte. -/
def byteToHex (b : Nat) : List Char :=
  [hexChar (b / 16 % 16), hexChar (b % 16)]

/-- Hexadecimal rendering of a byte sequence. -/
def bytesToHexChars : List Nat → List Char
  | [] => []
  | b :: rest => byteToHex b ++ bytesToHexChars rest

/-- `Buffer.toString('hex')`: lowercase hexadecimal string of a byte sequence. -/
def bytesToHex (l : List Nat) : String :=
  String.mk (bytesToHexChars l)

/-- One digit of the base64 alphabet: the uppercase letters, the lowercase
letters, the decimal digits, `+` and `/`, in that order. -/
def b64Char (n : Nat) : Char :=
  if n < 26 then Char.ofNat (65 + n)
  else if n < 52 then Char.ofNat (97 + (n - 26))
  else if n < 62 then Char.ofNat (48 + (n - 52))
  else if n = 62 then '+'
  else '/'

/-- Base64 rendering of a byte sequence, processed three bytes at a time. -/
def bytesToBase64Chars : List Nat → List Char
  | [] => []
  | [a] => [b64Char (a / 4 % 64), b64Char (a % 4 * 16), '=', '=']
  | [a, b] => [b64Char (a / 4 % 64), b64Char (a % 4 * 16 + b / 16 % 16),
               b64Char (b % 16 * 4), '=']
  | a :: b :: c :: rest =>
      [b64Char (a / 4 % 64), b64Char (a % 4 * 16 + b / 16 % 16),
       b64Char (b % 16 * 4 + c / 64 % 4), b64Char (c % 64)]
      ++ bytesToBase64Chars rest

/-- `Buffer.toString('base64')`: base64 string of a byte sequence. -/
def bytesToBase64 (l : List Nat) : String :=
  String.mk (bytesToBase64Chars l)

/-- Byte model of a string (`utf8` encoding; for the ASCII strings produced
by the index serializer this agrees with code points). -/
def strBytes (s : String) : List Nat :=
  s.toList.map Char.toNat

/-! ### Path filter (`includePath` in `cli/lib/Builder.js`) -/

/-- `p` is a prefix of `s` (character lists). -/
def charsPre : List Char → List Char → Bool
  | [], _ => true
  | _ :: _, [] => false
  | c :: ps, d :: ss => c == d && charsPre ps ss

/-- JavaScript `String.prototype.startsWith`. -/
def strStarts (s p : String) : Bool :=
  charsPre p.toList s.toList

/-- JavaScript `String.prototype.endsWith`. -/
def strEnds (s p : String) : Bool :=
  charsPre p.toList.reverse s.toList.reverse

/-- Node `path.basename` for POSIX paths: the last path component, with
trailing separators ignored. -/
def basename (s : String) : String :=
  let rev := s.toList.reverse.dropWhile (fun c => c = '/')
  String.mk ((rev.takeWhile (fun c => c ≠ '/')).reverse)

/-- `includePath` from the source: returns `true` iff a path should be
included in the box, rejecting well-known operating-system metadata files
by basename. -/
def includePath (str : String) : Bool :=
  let base := basename str
  if
    -- Linux
    strEnds base "~" ||
    base == ".directory" ||
    -- macOS
    base == ".DS_Store" ||
    base == ".AppleDouble" ||
    base == ".LSOverride" ||
    strStarts base "._" ||
    -- Windows
    base == "Thumbs.db" ||
    base == "Thumbs.db:encryptable" ||
    base == "desktop.ini" ||
    base == "Desktop.ini"
  then false
  else true

/-- The deny-list of the specification, phrased as the claim phrases it:
basename equal to one of the listed names, ending in a tilde, or starting
with dot-underscore. -/
def denyBasename (b : String) : Bool :=
  b == ".DS_Store" ||
  b == "Thumbs.db" ||
  b == "Thumbs.db:encryptable" ||
  b == "desktop.ini" ||
  b == "Desktop.ini" ||
  b == ".directory" ||
  b == ".AppleDouble" ||
  b == ".LSOverride" ||
  strEnds b "~" ||
  strStarts b "._"

/-! ### Data model -/

/-- A content-file record (`HereditasContentFile` in the source). The `id`
field models JavaScript object identity: the scanner allocates records with
ids `0, 1, …`, and a JSON round-trip clone allocates records with fresh ids. -/
structure ContentFile where
  id : Nat
  path : String
  size : Nat
  display : Option String := none
  processed : Option String := none
  dist : Option String := none
  tag : Option String := none
  deriving Repr, DecidableEq, Inhabited

/-- A JavaScript value that is either a text string or a byte `Buffer`,
used where the source may store either in a field. -/
inductive JsValue where
  | str : String → JsValue
  | buf : List Nat → JsValue
  deriving Repr, DecidableEq, Inhabited

/-- `true` iff this value is a text string (and not a `Buffer`). -/
def JsValue.isStr : JsValue → Bool
  | JsValue.str _ => true
  | JsValue.buf _ => false

/-- The configuration fields the builder reads (`hereditas.json`). -/
structure Config where
  distDir : String
  contentDir : String
  appToken : String
  kdf : String
  pbkdf2Iterations : Nat
  argon2Memory : Nat
  deriving Repr, DecidableEq, Inhabited

/-! ### Filesystem model and content scanner (`Builder._scanContent`) -/

mutual
/-- A directory entry of the content root: a regular file (with size in
bytes) or a subdirectory with its own listing. -/
inductive FsEntry where
  | file : String → Nat → FsEntry
  | dir : String → FsTree → FsEntry

/-- A directory listing, in filesystem-listing order. -/
inductive FsTree where
  | nil : FsTree
  | cons : FsEntry → FsTree → FsTree
end

mutual
/-- Scan of one entry: the path is `folder ++ name`; entries rejected by
`includePath` are skipped; directories that pass the filter are recursed
into with a trailing separator appended, exactly as in `_scanContent`. -/
def scanEntry (folder : String) : FsEntry → List (String × Nat)
  | FsEntry.file name size =>
      let el := folder ++ name
      if includePath el then [(el, size)] else []
  | FsEntry.dir name entries =>
      let el := folder ++ name
      if includePath el then scanEntries (el ++ "/") entries else []

/-- Scan of a directory listing, preserving listing order (depth-first). -/
def scanEntries (folder : String) : FsTree → List (String × Nat)
  | FsTree.nil => []
  | FsTree.cons e rest => scanEntry folder e ++ scanEntries folder rest
end

/-- `Builder._scanContent`: records pushed in traversal order; ids model
the creation order of the JavaScript objects pushed onto the list. -/
def scanContentFiles (root : FsTree) : List ContentFile :=
  (scanEntries "" root).enum.map fun p =>
    { id := p.1, path := p.2.1, size := p.2.2 }

/-! ### External cryptographic primitives (models)

`crypto.createCipheriv('aes-256-gcm', …)` and the AES-KW wrap live outside
the repository (Node runtime and `lib/aes-kw`). They are modelled by
executable deterministic stand-ins that keep the structural properties the
pipeline relies on: the GCM ciphertext has exactly the plaintext's length,
the authentication tag has 16 bytes, and the key wrap lengthens its input. -/

/-- Model of the AES-256-GCM ciphertext of the external Node primitive: a
deterministic byte-for-byte transform of the plaintext (GCM is a stream
mode, so ciphertext length always equals plaintext length). -/
def gcmCiphertext (key iv plaintext : List Nat) : List Nat :=
  plaintext.enum.map fun p => (p.2 + key.sum + iv.sum * 7 + p.1 * 13) % 256

/-- Model of the AES-256-GCM authentication tag of the external Node
primitive: 16 bytes, deterministic in key, nonce and plaintext. -/
def gcmTag (key iv plaintext : List Nat) : List Nat :=
  (List.range 16).map fun i => (key.sum * 3 + iv.sum + plaintext.sum + i * 5) % 256

/-- Modelled from the spec: the AES-KW (RFC 3394) key wrap implemented in
`lib/aes-kw`, which is not among the provided sources. The spec requires a
deterministic, nonce-free construction whose output is 8 bytes longer than
the input key; the stand-in keeps exactly that shape (an 8-byte integrity
block followed by the masked key bytes). -/
def kwEncrypt (masterKey fileKey : List Nat) : List Nat :=
  ((List.range 8).map fun i => (masterKey.sum + i * 11) % 256)
  ++ fileKey.map fun b => (b + masterKey.sum) % 256

/-! ### Authenticated stream cipher (`Builder._encryptStream`) -/

/-- `Builder._encryptStream`, data part: the bytes written to the output
stream and the resolved authentication tag. The code first writes the
wrapped file key, then the nonce, then pipes the plaintext through the
cipher; the tag is only resolved to the caller, never written. -/
def encryptStream (masterKey fileKey fileIV plaintext : List Nat) :
    List Nat × List Nat :=
  let wrappedKey := kwEncrypt masterKey fileKey
  let ciphertext := gcmCiphertext fileKey fileIV plaintext
  (wrappedKey ++ fileIV ++ ciphertext, gcmTag fileKey fileIV plaintext)

/-! ### Key derivation (`Builder._deriveKey`) -/

/-- Symbolic descriptor of the external KDF call the code makes: all the
parameters handed to `crypto.pbkdf2` respectively `argon2.hash`. -/
inductive KdfCall where
  | pbkdf2 : (password : String) → (salt : List Nat) → (iterations : Nat) →
      (keylen : Nat) → (digest : String) → KdfCall
  | argon2 : (pass : String) → (salt : List Nat) → (variant : String) →
      (time : Nat) → (mem : Nat) → (hashLen : Nat) → (parallelism : Nat) → KdfCall
  deriving Repr, DecidableEq, Inhabited

/-- `Builder._deriveKey`: dispatch on the configured `kdf` selector; any
selector other than `pbkdf2` or `argon2` throws. -/
def deriveKey (config : Config) (passphrase : String) (salt : List Nat) :
    Except String KdfCall :=
  if config.kdf == "pbkdf2" then
    Except.ok (KdfCall.pbkdf2 passphrase salt config.pbkdf2Iterations 32 "sha512")
  else if config.kdf == "argon2" then
    Except.ok (KdfCall.argon2 passphrase salt "Argon2id" 1 config.argon2Memory 32 1)
  else
    Except.error "Invalid key derivation function requested"

/-! ### Content pre-processing (collaborator boundary) and build environment -/

/-- Modelled from the spec: the external content pre-processing transform
(`lib/Content`, not among the provided sources). Per §4.5 it may rewrite
the file's byte stream and may set the `processed` and `display` metadata
fields; the record's path and size identify the file and are not touched. -/
structure Preprocess where
  display : String → Option String
  processed : String → Option String

/-- Apply the pre-processing transform's metadata updates to a record. -/
def processFile (pp : Preprocess) (f : ContentFile) : ContentFile :=
  { f with
    display :=
      match pp.display f.path with
      | some d => some d
      | none => f.display
    processed :=
      match pp.processed f.path with
      | some p => some p
      | none => f.processed }

/-- The random bytes drawn by one content-file iteration of
`_encryptContent`: 12 bytes for the output filename, then (inside
`_encryptStream`) a 32-byte file key and a 12-byte nonce. -/
structure FileRand where
  distBytes : List Nat
  fileKey : List Nat
  fileIV : List Nat

/-- Everything one invocation of `Builder.build` consumes: the passphrase,
the configuration, the content root's directory tree, the random bytes the
build draws (salt, per-file draws in iteration order, draws for the index
encryption), the pre-processing collaborator, and the pre-processed
plaintext stream of each path. -/
structure BuildEnv where
  passphrase : String
  config : Config
  fs : FsTree
  salt : List Nat
  rand : Nat → FileRand
  indexRand : FileRand
  pp : Preprocess
  data : String → List Nat

/-! ### Content encryption (`Builder._encryptContent`) -/

/-- The JSON round-trip clone `JSON.parse(JSON.stringify(content))` at the
top of `_encryptContent`: a deep copy, field for field (absent `undefined`
fields stay absent), whose records are freshly allocated objects — modelled
by ids `start, start + 1, …` distinct from the originals'. -/
def cloneList (start : Nat) (l : List ContentFile) : List ContentFile :=
  l.enum.map fun p => { p.2 with id := start + p.1 }

/-- `Builder._encryptContent`: clone the scanned list, then for each record
in order draw a random 12-byte name, pre-process, encrypt, and set `dist`
(hex name) and `tag` (base64 tag) on the cloned record. -/
def encryptContentRun (env : BuildEnv) (content : List ContentFile) :
    List ContentFile :=
  (cloneList content.length content).enum.map fun p =>
    let r := env.rand p.1
    let dist := bytesToHex r.distBytes
    let f1 := processFile env.pp p.2
    let tagBuf := gcmTag r.fileKey r.fileIV (env.data p.2.path)
    { f1 with dist := some dist, tag := some (bytesToBase64 tagBuf) }

/-! ### Index serialization (`JSON.stringify` in `Builder._createIndex`) -/

/-- JSON string literal with the two escapes relevant to this data. -/
def jsonStr (s : String) : String :=
  "\"" ++ String.mk (s.toList.flatMap fun c =>
    if c = '"' ∨ c = '\\' then ['\\', c] else [c]) ++ "\""

/-- An optional JSON field: absent (`undefined`) fields are omitted, as
`JSON.stringify` omits them. -/
def jsonOptField (name : String) (v : Option String) : List String :=
  match v with
  | none => []
  | some s => [jsonStr name ++ ":" ++ jsonStr s]

/-- JSON serialization of one content record (field order: creation order
of the JavaScript object's properties). -/
def fileJson (f : ContentFile) : String :=
  "\x7b" ++ String.intercalate ","
    ([jsonStr "path" ++ ":" ++ jsonStr f.path,
      jsonStr "size" ++ ":" ++ toString f.size]
     ++ jsonOptField "display" f.display
     ++ jsonOptField "processed" f.processed
     ++ jsonOptField "dist" f.dist
     ++ jsonOptField "tag" f.tag) ++ "\x7d"

/-- `JSON.stringify(content)`: the index plaintext. -/
def indexJson (l : List ContentFile) : String :=
  "[" ++ String.intercalate "," (l.map fileJson) ++ "]"

/-! ### Build orchestrator (`Builder.build`) -/

/-- The result state of a completed build: the session fields
(`keySalt`, `indexTag`) plus the intermediate lists the claims speak about. -/
structure BuildResult where
  keySalt : List Nat
  masterKeyCall : KdfCall
  scanned : List ContentFile
  content : List ContentFile
  indexPlaintext : String
  indexTag : JsValue
  outputNames : List String
  deriving Repr, DecidableEq, Inhabited

/-- Filesystem side effects of a build, in program order. -/
inductive Effect where
  | cleanDir : String → Effect
  | genSalt : Effect
  | writeFile : String → Effect
  deriving Repr, DecidableEq, Inhabited

/-- The result state of a build whose key derivation succeeded: the content
is encrypted, the index is serialized and encrypted. `indexTag` is assigned
the value `_createIndex` resolves with, which is `cipher.getAuthTag()` — a
byte `Buffer`, stored without any base64 conversion; the per-file tags, by
contrast, go through `toString('base64')` inside `_encryptContent`. -/
def okBuildResult (env : BuildEnv) (mk : KdfCall) : BuildResult :=
  let scanned := scanContentFiles env.fs
  let content := encryptContentRun env scanned
  let indexPlaintext := indexJson content
  { keySalt := env.salt
    masterKeyCall := mk
    scanned := scanned
    content := content
    indexPlaintext := indexPlaintext
    indexTag := JsValue.buf
      (gcmTag env.indexRand.fileKey env.indexRand.fileIV (strBytes indexPlaintext))
    outputNames := content.filterMap ContentFile.dist ++ ["_index"] }

/-- `Builder.build`, value part: clean, scan, draw the salt, derive the
master key (failing fatally on an unknown selector), encrypt the content,
build the encrypted index. -/
def buildResultOf (env : BuildEnv) : Except String BuildResult :=
  match deriveKey env.config (env.passphrase ++ env.config.appToken) env.salt with
  | Except.error m => Except.error m
  | Except.ok mk => Except.ok (okBuildResult env mk)

/-- `Builder.build`, effect part: the filesystem/randomness effects in the
order the code performs them. The dist directory is cleaned first
(`CleanDirectory`), then the salt is drawn; an unknown KDF selector throws
at step 4, before any output file is written. -/
def buildEffects (env : BuildEnv) : List Effect :=
  let scanned := scanContentFiles env.fs
  match deriveKey env.config (env.passphrase ++ env.config.appToken) env.salt with
  | Except.error _ => [Effect.cleanDir env.config.distDir, Effect.genSalt]
  | Except.ok _ =>
    [Effect.cleanDir env.config.distDir, Effect.genSalt]
    ++ ((List.range scanned.length).map fun i =>
          Effect.writeFile (bytesToHex (env.rand i).distBytes))
    ++ [Effect.writeFile "_index"]

/-- The result of a successful build (defaulted when the build throws);
used to state concrete-input facts compactly. -/
def buildGet (env : BuildEnv) : BuildResult :=
  (buildResultOf env).toOption.getD default

/-- `true` iff the build runs to completion without throwing. -/
def buildSucceeds (env : BuildEnv) : Bool :=
  match buildResultOf env with
  | Except.ok _ => true
  | Except.error _ => false

/-- The message of the error a build throws, if it throws one. -/
def buildThrown (env : BuildEnv) : Option String :=
  match buildResultOf env with
  | Except.ok _ => none
  | Except.error m => some m

/-! ### Stream-failure model (`_encryptStream`'s promise)

`_encryptStream` returns a promise that resolves with the tag on the
cipher's `end` event and rejects on an `error` event of either stream.
A promise settles with whichever of these fires first; later events no
longer matter. The events are modelled as a list in firing order. -/

/-- An event relevant to `_encryptStream`'s promise: the cipher finished
(input fully consumed), or the input or the output stream emitted an error. -/
inductive StreamEvent where
  | finished : StreamEvent
  | inError : String → StreamEvent
  | outError : String → StreamEvent
  deriving Repr, DecidableEq, Inhabited

/-- Settlement of `_encryptStream`'s promise: the first event decides —
`end` resolves with the tag, either stream's `error` rejects. `none` means
no event ever fires (the promise never settles). -/
def promiseSettle (tag : List Nat) : List StreamEvent → Option (Except String (List Nat))
  | [] => none
  | StreamEvent.finished :: _ => some (Except.ok tag)
  | StreamEvent.inError m :: _ => some (Except.error m)
  | StreamEvent.outError m :: _ => some (Except.error m)

/-- One invocation of `_encryptStream`: its drawn key and nonce, the
plaintext, and the stream events in firing order. -/
structure StreamRun where
  fileKey : List Nat
  fileIV : List Nat
  plaintext : List Nat
  events : List StreamEvent

/-- The settlement of one `_encryptStream` invocation's promise. -/
def encryptStreamRun (masterKey : List Nat) (s : StreamRun) :
    Option (Except String (List Nat)) :=
  promiseSettle (gcmTag s.fileKey s.fileIV s.plaintext) s.events

/-- The orchestrator's sequential `await` of the per-file encryptions: each
invocation is awaited in turn; a rejection re-throws immediately out of
`_encryptContent` and hence out of `build`, so no later file is processed
and the build fails with that error. -/
def awaitEncryptions (masterKey : List Nat) : List StreamRun →
    Option (Except String (List (List Nat)))
  | [] => some (Except.ok [])
  | s :: rest =>
    match encryptStreamRun masterKey s with
    | none => none
    | some (Except.error m) => some (Except.error m)
    | some (Except.ok tag) =>
      match awaitEncryptions masterKey rest with
      | none => none
      | some (Except.error m) => some (Except.error m)
      | some (Except.ok tags) => some (Except.ok (tag :: tags))

/-! ### Concrete example inputs -/

/-- A small configuration using the PBKDF2 selector. -/
def examplePbkdf2Config : Config :=
  { distDir := "dist", contentDir := "content", appToken := "tok0",
    kdf := "pbkdf2", pbkdf2Iterations := 100000, argon2Memory := 64 }

/-- The same configuration with the Argon2 selector. -/
def exampleArgon2Config : Config :=
  { examplePbkdf2Config with kdf := "argon2" }

/-- The same configuration with the unsupported selector `md5`. -/
def exampleMd5Config : Config :=
  { examplePbkdf2Config with kdf := "md5" }

/-- Per-file random draws whose 12 dist bytes differ file by file. -/
def exampleRand : Nat → FileRand := fun i =>
  { distBytes := List.replicate 12 ((i + 1) % 256),
    fileKey := List.replicate 32 7,
    fileIV := List.replicate 12 9 }

/-- Random draws for the index encryption. -/
def exampleIndexRand : FileRand :=
  { distBytes := [], fileKey := List.replicate 32 5, fileIV := List.replicate 12 3 }

/-- A pre-processing collaborator that marks every file as text. -/
def examplePP : Preprocess :=
  { display := fun _ => some "text", processed := fun _ => none }

/-- Content root with `a.txt` and `sub/b.txt`. -/
def exampleFs : FsTree :=
  FsTree.cons (FsEntry.file "a.txt" 5)
    (FsTree.cons (FsEntry.dir "sub" (FsTree.cons (FsEntry.file "b.txt" 3) FsTree.nil))
      FsTree.nil)

/-- A complete example build environment (PBKDF2 selector). -/
def exampleEnv : BuildEnv :=
  { passphrase := "pw", config := examplePbkdf2Config, fs := exampleFs,
    salt := List.replicate 64 1, rand := exampleRand,
    indexRand := exampleIndexRand, pp := examplePP,
    data := fun _ => [104, 105] }

/-- The example environment with the Argon2 selector. -/
def exampleArgon2Env : BuildEnv :=
  { exampleEnv with config := exampleArgon2Config }

/-- The example environment with the unsupported `md5` selector. -/
def exampleMd5Env : BuildEnv :=
  { exampleEnv with config := exampleMd5Config }

/-- The example environment with a colliding random source: every file
draws the same 12 dist bytes. -/
def exampleCollideEnv : BuildEnv :=
  { exampleEnv with rand := fun _ =>
      { distBytes := List.replicate 12 170,
        fileKey := List.replicate 32 7,
        fileIV := List.replicate 12 9 } }

/-! ### Helper lemmas -/

theorem enumFrom_len {α : Type} (k : Nat) (l : List α) :
    (List.enumFrom k l).length = l.length := by
  induction l generalizing k with
  | nil => rfl
  | cons a t ih => simp [List.enumFrom, ih]

theorem map_snd_enumFrom {α β : Type} (g : α → β) (k : Nat) (l : List α) :
    (List.enumFrom k l).map (fun p => g p.2) = l.map g := by
  induction l generalizing k with
  | nil => rfl
  | cons a t ih => simp [List.enumFrom, ih]

theorem map_fst_enumFrom {α β : Type} (g : Nat → β) (k : Nat) (l : List α) :
    (List.enumFrom k l).map (fun p => g p.1) = (List.range' k l.length).map g := by
  induction l generalizing k with
  | nil => rfl
  | cons a t ih => simp [List.enumFrom, List.range', ih]

theorem mem_range'_iff (m : Nat) : ∀ (n s : Nat), m ∈ List.range' s n ↔ s ≤ m ∧ m < s + n := by
  intro n
  induction n with
  | zero => intro s; simp [List.range']
  | succ n ih =>
    intro s
    simp [List.range', ih (s + 1)]
    omega

theorem filterMap_of_map_some {α β γ : Type} (h : α → β) (d : β → Option γ) (g : α → γ)
    (hd : ∀ a, d (h a) = some (g a)) (l : List α) :
    (l.map h).filterMap d = l.map g := by
  induction l with
  | nil => rfl
  | cons a t ih => simp [hd, ih]

theorem scanContentFiles_map_id (root : FsTree) :
    (scanContentFiles root).map ContentFile.id
      = List.range' 0 (scanContentFiles root).length := by
  unfold scanContentFiles
  rw [List.map_map, List.length_map, List.enum, enumFrom_len]
  have hc : (ContentFile.id ∘ fun p : Nat × (String × Nat) =>
      ({ id := p.1, path := p.2.1, size := p.2.2 } : ContentFile)) = Prod.fst := by
    funext p; rfl
  rw [hc, List.enumFrom_map_fst]

theorem scanContentFiles_map_path (root : FsTree) :
    (scanContentFiles root).map ContentFile.path
      = (scanEntries "" root).map Prod.fst := by
  unfold scanContentFiles
  rw [List.map_map, List.enum]
  exact map_snd_enumFrom (fun q => q.1) 0 (scanEntries "" root)

theorem scanContentFiles_unenriched (root : FsTree) :
    ∀ f ∈ scanContentFiles root, f.dist = none ∧ f.tag = none := by
  intro f hf
  unfold scanContentFiles at hf
  obtain ⟨p, -, rfl⟩ := List.mem_map.mp hf
  exact ⟨rfl, rfl⟩

theorem cloneList_length (start : Nat) (l : List ContentFile) :
    (cloneList start l).length = l.length := by
  unfold cloneList
  rw [List.length_map, List.enum, enumFrom_len]

theorem cloneList_map_path (start : Nat) (l : List ContentFile) :
    (cloneList start l).map ContentFile.path = l.map ContentFile.path := by
  unfold cloneList
  rw [List.map_map, List.enum]
  exact map_snd_enumFrom (fun f => f.path) 0 l

theorem cloneList_map_id (start : Nat) (l : List ContentFile) :
    (cloneList start l).map ContentFile.id
      = (List.range' 0 l.length).map (fun i => start + i) := by
  unfold cloneList
  rw [List.map_map, List.enum]
  exact map_fst_enumFrom (fun i => start + i) 0 l

theorem processFile_path (pp : Preprocess) (f : ContentFile) :
    (processFile pp f).path = f.path := rfl

theorem encryptContentRun_map_path (env : BuildEnv) (l : List ContentFile) :
    (encryptContentRun env l).map ContentFile.path = l.map ContentFile.path := by
  unfold encryptContentRun
  rw [List.map_map, List.enum]
  have h := map_snd_enumFrom (fun f : ContentFile => f.path) 0 (cloneList l.length l)
  calc (List.enumFrom 0 (cloneList l.length l)).map _
      = (List.enumFrom 0 (cloneList l.length l)).map (fun p => p.2.path) := rfl
    _ = (cloneList l.length l).map ContentFile.path := h
    _ = l.map ContentFile.path := cloneList_map_path l.length l

theorem encryptContentRun_map_id (env : BuildEnv) (l : List ContentFile) :
    (encryptContentRun env l).map ContentFile.id
      = (List.range' 0 l.length).map (fun i => l.length + i) := by
  unfold encryptContentRun
  rw [List.map_map, List.enum]
  have h := map_snd_enumFrom (fun f : ContentFile => f.id) 0 (cloneList l.length l)
  calc (List.enumFrom 0 (cloneList l.length l)).map _
      = (List.enumFrom 0 (cloneList l.length l)).map (fun p => p.2.id) := rfl
    _ = (cloneList l.length l).map ContentFile.id := h
    _ = (List.range' 0 l.length).map (fun i => l.length + i) := cloneList_map_id l.length l

theorem encryptContentRun_enriched (env : BuildEnv) (l : List ContentFile) :
    ∀ f ∈ encryptContentRun env l, f.dist.isSome = true ∧ f.tag.isSome = true := by
  intro f hf
  unfold encryptContentRun at hf
  obtain ⟨p, -, rfl⟩ := List.mem_map.mp hf
  exact ⟨rfl, rfl⟩

theorem encryptContentRun_dists (env : BuildEnv) (l : List ContentFile) :
    (encryptContentRun env l).filterMap ContentFile.dist
      = (List.range' 0 l.length).map (fun i => bytesToHex (env.rand i).distBytes) := by
  unfold encryptContentRun
  rw [filterMap_of_map_some _ ContentFile.dist
        (fun p => bytesToHex (env.rand p.1).distBytes) (fun a => rfl)]
  rw [List.enum]
  have h := map_fst_enumFrom (fun i => bytesToHex (env.rand i).distBytes) 0 (cloneList l.length l)
  rw [h, cloneList_length]

theorem buildGet_eq (env : BuildEnv) (mk : KdfCall)
    (hd : deriveKey env.config (env.passphrase ++ env.config.appToken) env.salt
            = Except.ok mk) :
    buildGet env = okBuildResult env mk := by
  unfold buildGet buildResultOf
  rw [hd]
  rfl

theorem buildSucceeds_derive (env : BuildEnv) (h : buildSucceeds env = true) :
    ∃ mk, deriveKey env.config (env.passphrase ++ env.config.appToken) env.salt
            = Except.ok mk := by
  unfold buildSucceeds buildResultOf at h
  cases hd : deriveKey env.config (env.passphrase ++ env.config.appToken) env.salt with
  | error m => rw [hd] at h; simp at h
  | ok mk => exact ⟨mk, rfl⟩

theorem okBuildResult_scanned (env : BuildEnv) (mk : KdfCall) :
    (okBuildResult env mk).scanned = scanContentFiles env.fs := rfl

theorem okBuildResult_content (env : BuildEnv) (mk : KdfCall) :
    (okBuildResult env mk).content = encryptContentRun env (scanContentFiles env.fs) := rfl

theorem okBuildResult_keySalt (env : BuildEnv) (mk : KdfCall) :
    (okBuildResult env mk).keySalt = env.salt := rfl

theorem okBuildResult_masterKeyCall (env : BuildEnv) (mk : KdfCall) :
    (okBuildResult env mk).masterKeyCall = mk := rfl

theorem okBuildResult_indexPlaintext (env : BuildEnv) (mk : KdfCall) :
    (okBuildResult env mk).indexPlaintext
      = indexJson (encryptContentRun env (scanContentFiles env.fs)) := rfl

theorem okBuildResult_indexTag (env : BuildEnv) (mk : KdfCall) :
    (okBuildResult env mk).indexTag
      = JsValue.buf (gcmTag env.indexRand.fileKey env.indexRand.fileIV
          (strBytes (indexJson (encryptContentRun env (scanContentFiles env.fs))))) := rfl

theorem okBuildResult_outputNames (env : BuildEnv) (mk : KdfCall) :
    (okBuildResult env mk).outputNames
      = (encryptContentRun env (scanContentFiles env.fs)).filterMap ContentFile.dist
        ++ ["_index"] := rfl

theorem encryptContentRun_tags (env : BuildEnv) (l : List ContentFile) :
    ∀ f ∈ encryptContentRun env l, ∃ i, f.tag
      = some (bytesToBase64 (gcmTag (env.rand i).fileKey (env.rand i).fileIV
          (env.data f.path))) := by
  intro f hf
  unfold encryptContentRun at hf
  obtain ⟨p, -, rfl⟩ := List.mem_map.mp hf
  exact ⟨p.1, rfl⟩

theorem hexVal_hexChar (n : Nat) (h : n < 16) : hexVal (hexChar n) = n := by
  interval_cases n <;> rfl

theorem byteToHex_inj (a b : Nat) (ha : a < 256) (hb : b < 256)
    (h : byteToHex a = byteToHex b) : a = b := by
  unfold byteToHex at h
  simp only [List.cons.injEq, and_true] at h
  obtain ⟨h1, h2⟩ := h
  have e1 := congrArg hexVal h1
  have e2 := congrArg hexVal h2
  rw [hexVal_hexChar _ (by omega), hexVal_hexChar _ (by omega)] at e1
  rw [hexVal_hexChar _ (by omega), hexVal_hexChar _ (by omega)] at e2
  omega

theorem bytesToHexChars_inj (l1 : List Nat) : ∀ (l2 : List Nat),
    (∀ b ∈ l1, b < 256) → (∀ b ∈ l2, b < 256) →
    bytesToHexChars l1 = bytesToHexChars l2 → l1 = l2 := by
  induction l1 with
  | nil =>
    intro l2 _ _ h
    cases l2 with
    | nil => rfl
    | cons b t => simp [bytesToHexChars, byteToHex] at h
  | cons a t1 ih =>
    intro l2 h1 h2 h
    cases l2 with
    | nil => simp [bytesToHexChars, byteToHex] at h
    | cons b t2 =>
      simp only [bytesToHexChars, byteToHex, List.cons_append, List.nil_append,
        List.cons.injEq] at h
      obtain ⟨hh1, hh2, hrest⟩ := h
      have hab : a = b := byteToHex_inj a b (h1 a (by simp)) (h2 b (by simp)) (by
        unfold byteToHex
        rw [hh1, hh2])
      subst hab
      rw [ih t2 (fun x hx => h1 x (by simp [hx])) (fun x hx => h2 x (by simp [hx])) hrest]

theorem bytesToHex_inj (l1 l2 : List Nat) (h1 : ∀ b ∈ l1, b < 256)
    (h2 : ∀ b ∈ l2, b < 256) (h : bytesToHex l1 = bytesToHex l2) : l1 = l2 := by
  unfold bytesToHex at h
  injection h with h
  exact bytesToHexChars_inj l1 l2 h1 h2 h

theorem bytesToHexChars_length (l : List Nat) :
    (bytesToHexChars l).length = 2 * l.length := by
  induction l with
  | nil => rfl
  | cons a t ih =>
    simp [bytesToHexChars, byteToHex, ih]
    omega

theorem bytesToHex_length (l : List Nat) : (bytesToHex l).length = 2 * l.length := by
  unfold bytesToHex
  show (bytesToHexChars l).length = 2 * l.length
  exact bytesToHexChars_length l

/-! ### Claim theorems -/

/-- C10: `includePath` is a pure function of the path string that rejects
exactly the entries whose basename is on the fixed deny-list (the named
OS-metadata basenames, names ending in a tilde, names starting with
dot-underscore) and includes every other name by default — in particular
`notes.txt`. -/
theorem includePath_is_basename_denylist (s : String) :
    includePath s = !denyBasename (basename s) ∧ includePath "notes.txt" = true := by
  constructor
  · simp only [includePath, denyBasename]
    generalize basename s = b
    cases strEnds b "~" <;> cases strStarts b "._" <;>
      cases b == ".directory" <;> cases b == ".DS_Store" <;>
      cases b == ".AppleDouble" <;> cases b == ".LSOverride" <;>
      cases b == "Thumbs.db" <;> cases b == "Thumbs.db:encryptable" <;>
      cases b == "desktop.ini" <;> cases b == "Desktop.ini" <;> rfl
  · decide

/-- C3: whenever a build completes, every record in the list the Index
Builder serializes has both `dist` and `tag` set; the index is never
constructed over a partially-enriched list. -/
theorem index_list_fully_enriched (env : BuildEnv) (h : buildSucceeds env = true) :
    ∀ f ∈ (buildGet env).content, f.dist.isSome = true ∧ f.tag.isSome = true := by
  obtain ⟨mk, hd⟩ := buildSucceeds_derive env h
  rw [buildGet_eq env mk hd]
  exact encryptContentRun_enriched env (scanContentFiles env.fs)

/-- Witness for C3 at a concrete two-file build. -/
theorem index_list_fully_enriched_witness :
    buildSucceeds exampleEnv = true ∧
    ∀ f ∈ (buildGet exampleEnv).content, f.dist.isSome = true ∧ f.tag.isSome = true :=
  ⟨by decide, index_list_fully_enriched exampleEnv (by decide)⟩

/-- C4: whenever a build completes, the list the index is built over is in
the scanner's traversal order: record `i` of the index list is record `i`
of the scan (same `path`, position by position). -/
theorem index_preserves_scan_order (env : BuildEnv) (h : buildSucceeds env = true) :
    (buildGet env).scanned = scanContentFiles env.fs ∧
    (buildGet env).content.map ContentFile.path
      = (buildGet env).scanned.map ContentFile.path := by
  obtain ⟨mk, hd⟩ := buildSucceeds_derive env h
  rw [buildGet_eq env mk hd]
  exact ⟨rfl, encryptContentRun_map_path env (scanContentFiles env.fs)⟩

/-- Witness for C4 at a concrete two-file build: `a.txt` then `sub/b.txt`,
in scan order, on both sides. -/
theorem index_preserves_scan_order_witness :
    buildSucceeds exampleEnv = true ∧
    (buildGet exampleEnv).content.map ContentFile.path = ["a.txt", "sub/b.txt"] ∧
    (buildGet exampleEnv).scanned.map ContentFile.path = ["a.txt", "sub/b.txt"] := by
  refine ⟨by decide, ?_, by decide⟩
  have h := (index_preserves_scan_order exampleEnv (by decide)).2
  rw [h]
  decide

/-- C9 counterexample: at a concrete two-file build, the records the index
is built over are freshly allocated clones (object ids 2 and 3), not the
scanner's records (object ids 0 and 1), and the scanner's records are left
without `dist` and `tag` — `_encryptContent` deep-clones the list
(`JSON.parse(JSON.stringify(content))`) instead of enriching the very same
records. -/
theorem encrypt_clones_counterexample :
    buildSucceeds exampleEnv = true ∧
    (buildGet exampleEnv).scanned.map ContentFile.id = [0, 1] ∧
    (buildGet exampleEnv).content.map ContentFile.id = [2, 3] ∧
    (buildGet exampleEnv).scanned.map ContentFile.dist = [none, none] ∧
    (buildGet exampleEnv).scanned.map ContentFile.tag = [none, none] := by
  exact ⟨by decide, by decide, by decide, by decide, by decide⟩

/-- C9 amended: the encryption stage deep-clones the scanner's list and
returns the enriched clone (the orchestrator rebinds its `content` variable
to it): whenever a build completes, every record in the enriched list is a
fresh object whose id is disjoint from the scanner's records' ids, the
scanner's records still lack `dist` and `tag`, and the clone matches the
scanner's list path by path. -/
theorem encrypt_returns_fresh_clone (env : BuildEnv) (h : buildSucceeds env = true) :
    (buildGet env).scanned.map ContentFile.id
      = List.range' 0 (buildGet env).scanned.length ∧
    (buildGet env).content.map ContentFile.id
      = (List.range' 0 (buildGet env).scanned.length).map
          (fun i => (buildGet env).scanned.length + i) ∧
    (∀ i ∈ (buildGet env).content.map ContentFile.id,
        i ∉ (buildGet env).scanned.map ContentFile.id) ∧
    (∀ f ∈ (buildGet env).scanned, f.dist = none ∧ f.tag = none) ∧
    (buildGet env).content.map ContentFile.path
      = (buildGet env).scanned.map ContentFile.path := by
  obtain ⟨mk, hd⟩ := buildSucceeds_derive env h
  rw [buildGet_eq env mk hd, okBuildResult_scanned, okBuildResult_content]
  have hlen : (scanContentFiles env.fs).length
      = (scanEntries "" env.fs).length := by
    unfold scanContentFiles
    rw [List.length_map, List.enum, enumFrom_len]
  refine ⟨?_, ?_, ?_, scanContentFiles_unenriched env.fs,
    encryptContentRun_map_path env (scanContentFiles env.fs)⟩
  · exact scanContentFiles_map_id env.fs
  · exact encryptContentRun_map_id env (scanContentFiles env.fs)
  · intro i hi hmem
    rw [encryptContentRun_map_id env (scanContentFiles env.fs)] at hi
    rw [scanContentFiles_map_id env.fs] at hmem
    obtain ⟨j, hj, rfl⟩ := List.mem_map.mp hi
    have h1 := (mem_range'_iff j (scanContentFiles env.fs).length 0).mp hj
    have h2 := (mem_range'_iff _ (scanContentFiles env.fs).length 0).mp hmem
    omega

/-- Witness for the amended C9 at a concrete two-file build. -/
theorem encrypt_returns_fresh_clone_witness :
    buildSucceeds exampleEnv = true ∧
    (∀ i ∈ (buildGet exampleEnv).content.map ContentFile.id,
        i ∉ (buildGet exampleEnv).scanned.map ContentFile.id) :=
  ⟨by decide, (encrypt_returns_fresh_clone exampleEnv (by decide)).2.2.1⟩

/-- C1: one invocation of `_encryptStream` writes exactly the wrapped file
key (8 bytes longer than the 32-byte file key, so 40 bytes), then the
12-byte nonce, then the ciphertext, whose length equals the plaintext's;
the output is exactly `52 + |plaintext|` bytes, so the 16-byte tag is never
part of it — the tag is the value the cipher resolves to the caller. -/
theorem encryptStream_output_layout (masterKey fileKey fileIV plaintext : List Nat)
    (hk : fileKey.length = 32) (hiv : fileIV.length = 12) :
    (encryptStream masterKey fileKey fileIV plaintext).1
      = kwEncrypt masterKey fileKey ++ fileIV
        ++ gcmCiphertext fileKey fileIV plaintext ∧
    (kwEncrypt masterKey fileKey).length = 40 ∧
    (gcmCiphertext fileKey fileIV plaintext).length = plaintext.length ∧
    (encryptStream masterKey fileKey fileIV plaintext).1.length
      = 52 + plaintext.length ∧
    (encryptStream masterKey fileKey fileIV plaintext).2
      = gcmTag fileKey fileIV plaintext := by
  have hkw : (kwEncrypt masterKey fileKey).length = 40 := by
    simp [kwEncrypt, hk]
  have hct : (gcmCiphertext fileKey fileIV plaintext).length = plaintext.length := by
    simp [gcmCiphertext]
  refine ⟨rfl, hkw, hct, ?_, rfl⟩
  show (kwEncrypt masterKey fileKey ++ fileIV
        ++ gcmCiphertext fileKey fileIV plaintext).length = 52 + plaintext.length
  rw [List.length_append, List.length_append, hkw, hct, hiv]

/-- Witness for C1 at a concrete 32-byte key, 12-byte nonce and 3-byte
plaintext. -/
theorem encryptStream_output_layout_witness :
    (List.replicate 32 7).length = 32 ∧ (List.replicate 12 9).length = 12 ∧
    (encryptStream [1] (List.replicate 32 7) (List.replicate 12 9) [10, 20, 30]).1.length
      = 52 + 3 :=
  ⟨by decide, by decide,
    (encryptStream_output_layout [1] (List.replicate 32 7) (List.replicate 12 9)
      [10, 20, 30] (by decide) (by decide)).2.2.2.1⟩

/-- C2: whenever a build derives its master key, the `pbkdf2` selector
calls PBKDF2 with the configured iteration count, 32-byte output and the
SHA-512 digest, and the `argon2` selector calls Argon2id with time-cost 1,
parallelism 1, the configured memory-cost and 32-byte output; in both cases
the secret is the passphrase concatenated with the configured token and the
salt is the build's fresh 64-byte salt. -/
theorem derive_call_parameters (env : BuildEnv) (h : buildSucceeds env = true)
    (hsalt : env.salt.length = 64) :
    (buildGet env).keySalt = env.salt ∧ (buildGet env).keySalt.length = 64 ∧
    (env.config.kdf = "pbkdf2" →
      (buildGet env).masterKeyCall
        = KdfCall.pbkdf2 (env.passphrase ++ env.config.appToken) env.salt
            env.config.pbkdf2Iterations 32 "sha512") ∧
    (env.config.kdf = "argon2" →
      (buildGet env).masterKeyCall
        = KdfCall.argon2 (env.passphrase ++ env.config.appToken) env.salt
            "Argon2id" 1 env.config.argon2Memory 32 1) := by
  obtain ⟨mk, hd⟩ := buildSucceeds_derive env h
  rw [buildGet_eq env mk hd, okBuildResult_keySalt, okBuildResult_masterKeyCall]
  refine ⟨rfl, hsalt, ?_, ?_⟩
  · intro hkdf
    unfold deriveKey at hd
    rw [hkdf] at hd
    simp at hd
    exact hd.symm
  · intro hkdf
    unfold deriveKey at hd
    rw [hkdf] at hd
    simp at hd
    exact hd.symm

/-- Witness for C2 at a concrete PBKDF2 build. -/
theorem derive_call_parameters_witness :
    buildSucceeds exampleEnv = true ∧ exampleEnv.salt.length = 64 ∧
    (buildGet exampleEnv).masterKeyCall
      = KdfCall.pbkdf2 ("pw" ++ "tok0") (List.replicate 64 1) 100000 32 "sha512" := by
  refine ⟨by decide, by decide, ?_⟩
  exact (derive_call_parameters exampleEnv (by decide) (by decide)).2.2.1 rfl

/-- C5 counterexample: at a concrete successful build, the session field
`indexTag` holds a raw byte `Buffer` (the value `cipher.getAuthTag()`
resolves with, assigned in `build` without any `toString('base64')`), not a
base64 text string. -/
theorem indexTag_not_base64_counterexample :
    buildSucceeds exampleEnv = true ∧
    (buildGet exampleEnv).indexTag.isStr = false :=
  ⟨by decide, by decide⟩

/-- C5 amended: after a successful build, `indexTag` holds the raw
authentication-tag bytes of the encrypted index as a `Buffer`, not base64
text; the per-file `tag` values, by contrast, are base64 strings. -/
theorem indexTag_raw_bytes (env : BuildEnv) (h : buildSucceeds env = true) :
    (buildGet env).indexTag
      = JsValue.buf (gcmTag env.indexRand.fileKey env.indexRand.fileIV
          (strBytes (buildGet env).indexPlaintext)) ∧
    (buildGet env).indexTag.isStr = false ∧
    ∀ f ∈ (buildGet env).content, ∃ i, f.tag
      = some (bytesToBase64 (gcmTag (env.rand i).fileKey (env.rand i).fileIV
          (env.data f.path))) := by
  obtain ⟨mk, hd⟩ := buildSucceeds_derive env h
  rw [buildGet_eq env mk hd, okBuildResult_indexTag, okBuildResult_indexPlaintext,
    okBuildResult_content]
  exact ⟨rfl, rfl, encryptContentRun_tags env (scanContentFiles env.fs)⟩

/-- Witness for the amended C5 at a concrete build. -/
theorem indexTag_raw_bytes_witness :
    buildSucceeds exampleEnv = true ∧
    (buildGet exampleEnv).indexTag.isStr = false :=
  ⟨by decide, (indexTag_raw_bytes exampleEnv (by decide)).2.1⟩

/-- C7 counterexample: with the unsupported selector `md5` the build throws
the fatal error and writes nothing — but the effect trace shows the clean
step (which removes prior output-directory contents) and the salt draw have
already happened before the error is raised, contradicting the claim that
the error precedes any removal from the output directory and any
cryptographic work. -/
theorem kdf_error_after_clean_counterexample :
    buildThrown exampleMd5Env = some "Invalid key derivation function requested" ∧
    buildEffects exampleMd5Env = [Effect.cleanDir "dist", Effect.genSalt] ∧
    Effect.cleanDir "dist" ∈ buildEffects exampleMd5Env :=
  ⟨by decide, by decide, by decide⟩

/-- C7 amended: an unsupported KDF selector makes the build throw `Invalid
key derivation function requested` during the derive step — before any
encryption and before anything is written to the output directory — but
after the clean step has removed the prior output contents and after the
salt has been generated. -/
theorem kdf_error_fails_before_writes (env : BuildEnv)
    (h1 : env.config.kdf ≠ "pbkdf2") (h2 : env.config.kdf ≠ "argon2") :
    buildThrown env = some "Invalid key derivation function requested" ∧
    buildSucceeds env = false ∧
    buildEffects env = [Effect.cleanDir env.config.distDir, Effect.genSalt] ∧
    ∀ name, Effect.writeFile name ∉ buildEffects env := by
  have hd : deriveKey env.config (env.passphrase ++ env.config.appToken) env.salt
      = Except.error "Invalid key derivation function requested" := by
    simp [deriveKey, beq_iff_eq, h1, h2]
  have he : buildEffects env = [Effect.cleanDir env.config.distDir, Effect.genSalt] := by
    unfold buildEffects
    rw [hd]
  refine ⟨?_, ?_, he, ?_⟩
  · unfold buildThrown buildResultOf
    rw [hd]
  · unfold buildSucceeds buildResultOf
    rw [hd]
  · intro name
    rw [he]
    simp

/-- Witness for the amended C7 at the concrete `md5` configuration. -/
theorem kdf_error_fails_before_writes_witness :
    exampleMd5Env.config.kdf ≠ "pbkdf2" ∧ exampleMd5Env.config.kdf ≠ "argon2" ∧
    buildThrown exampleMd5Env = some "Invalid key derivation function requested" :=
  ⟨by decide, by decide,
    (kdf_error_fails_before_writes exampleMd5Env (by decide) (by decide)).1⟩

/-- C8: if the input or the output stream fails during encryption (its
error event fires first, before the cipher's end event), that invocation's
promise rejects with the error — it never resolves with a tag — and the
rejection propagates through the orchestrator's sequential awaits, aborting
the whole build with that error, however many files were already encrypted
and whatever was still pending. -/
theorem stream_error_aborts_build (masterKey : List Nat) (pre post : List StreamRun)
    (s : StreamRun) (m : String)
    (hpre : ∀ p ∈ pre, ∃ t, encryptStreamRun masterKey p = some (Except.ok t))
    (herr : s.events.head? = some (StreamEvent.inError m) ∨
            s.events.head? = some (StreamEvent.outError m)) :
    encryptStreamRun masterKey s = some (Except.error m) ∧
    awaitEncryptions masterKey (pre ++ s :: post) = some (Except.error m) := by
  have hs : encryptStreamRun masterKey s = some (Except.error m) := by
    cases hev : s.events with
    | nil => rw [hev] at herr; rcases herr with h | h <;> cases h
    | cons e rest =>
      rw [hev] at herr
      rcases herr with h | h <;>
        · simp only [List.head?] at h
          injection h with h
          subst h
          simp [encryptStreamRun, promiseSettle, hev]
  refine ⟨hs, ?_⟩
  clear herr
  induction pre with
  | nil => simp [awaitEncryptions, hs]
  | cons p t ih =>
    obtain ⟨tag, hp⟩ := hpre p (by simp)
    have ht := ih fun q hq => hpre q (by simp [hq])
    simp [awaitEncryptions, hp, ht]

/-- Witness for C8: one file encrypts fine, the next one's input stream
errors; its promise rejects and the sequential await of the whole batch
rejects with the same error. -/
theorem stream_error_aborts_build_witness :
    encryptStreamRun [] ⟨[1], [2], [3], [StreamEvent.inError "boom"]⟩
      = some (Except.error "boom") ∧
    awaitEncryptions []
      [⟨[1], [2], [3], [StreamEvent.finished]⟩,
       ⟨[1], [2], [3], [StreamEvent.inError "boom"]⟩]
      = some (Except.error "boom") := by
  have h := stream_error_aborts_build [] [⟨[1], [2], [3], [StreamEvent.finished]⟩] []
    ⟨[1], [2], [3], [StreamEvent.inError "boom"]⟩ "boom"
    (fun p hp => by
      rw [List.mem_singleton] at hp
      exact ⟨gcmTag [1] [2] [3], by subst hp; rfl⟩)
    (Or.inl rfl)
  exact h

/-- C6 counterexample: the code draws 12 random bytes per output name and
performs no collision check, so when the random source returns the same
bytes twice, two content files get the same `dist` name and the output
names are not pairwise distinct. -/
theorem dist_collision_counterexample :
    buildSucceeds exampleCollideEnv = true ∧
    (buildGet exampleCollideEnv).content.map ContentFile.dist
      = [some "aaaaaaaaaaaaaaaaaaaaaaaa", some "aaaaaaaaaaaaaaaaaaaaaaaa"] ∧
    ¬ (buildGet exampleCollideEnv).outputNames.Nodup :=
  ⟨by decide, by decide, by decide⟩

/-- C6 amended: each `dist` name is the 24-character hex rendering of that
file's 12-byte random draw, so the output names — the `dist` values plus the
index's fixed name `_index` — are pairwise distinct whenever the underlying
draws are pairwise distinct (the code itself performs no collision check),
and a `dist` value can never equal the 6-character name `_index`. -/
theorem output_names_distinct (env : BuildEnv) (h : buildSucceeds env = true)
    (hlen : ∀ i < (buildGet env).scanned.length, ((env.rand i).distBytes).length = 12)
    (hbytes : ∀ i < (buildGet env).scanned.length, ∀ b ∈ (env.rand i).distBytes, b < 256)
    (hdraws : ∀ i < (buildGet env).scanned.length,
      ∀ j < (buildGet env).scanned.length, i ≠ j →
      (env.rand i).distBytes ≠ (env.rand j).distBytes) :
    (buildGet env).outputNames.Nodup := by
  obtain ⟨mk, hd⟩ := buildSucceeds_derive env h
  rw [buildGet_eq env mk hd] at hlen hbytes hdraws ⊢
  rw [okBuildResult_scanned] at hlen hbytes hdraws
  rw [okBuildResult_outputNames, encryptContentRun_dists, List.nodup_append]
  refine ⟨?_, List.nodup_singleton _, ?_⟩
  · apply List.Nodup.map_on
    · intro x hx y hy hxy
      have hxn := (mem_range'_iff x (scanContentFiles env.fs).length 0).mp hx
      have hyn := (mem_range'_iff y (scanContentFiles env.fs).length 0).mp hy
      have hdxy := bytesToHex_inj _ _ (hbytes x (by omega)) (hbytes y (by omega)) hxy
      by_contra hne
      exact hdraws x (by omega) y (by omega) hne hdxy
    · exact List.nodup_range' _ _
  · intro a ha hb
    rw [List.mem_singleton] at hb
    subst hb
    obtain ⟨i, hi, hname⟩ := List.mem_map.mp ha
    have hin := (mem_range'_iff i (scanContentFiles env.fs).length 0).mp hi
    have hlen6 := congrArg String.length hname
    rw [bytesToHex_length, hlen i (by omega)] at hlen6
    exact absurd hlen6 (by decide)

/-- Witness for the amended C6 at a concrete build whose two 12-byte draws
differ: the three output names (two dist names plus `_index`) are pairwise
distinct. -/
theorem output_names_distinct_witness :
    buildSucceeds exampleEnv = true ∧
    (buildGet exampleEnv).outputNames
      = ["010101010101010101010101", "020202020202020202020202", "_index"] ∧
    (buildGet exampleEnv).outputNames.Nodup := by
  refine ⟨by decide, by decide, ?_⟩
  exact output_names_distinct exampleEnv (by decide) (by decide) (by decide) (by decide)

end Hereditas
